import Mathlib

/-!
Verification of the lexical front-end of the cicada shell (src/src/tools.rs):
line classification, history bang-bang expansion and token re-quoting.
Shell text is modelled shallowly as lists of characters; the external
tokenizer and the external regex engine appear as parameters or as models
of their documented behaviour at the fixed patterns the source uses.
-/

namespace Tools

/-- Shell text is modelled as a list of characters. -/
abbrev Str := List Char

/-- The backslash character (code 92). -/
def bsC : Char := Char.ofNat 92

/-- The single-quote character (code 39). -/
def sqC : Char := Char.ofNat 39

/-- The double-quote character (code 34). -/
def dqC : Char := Char.ofNat 34

/-- The backtick character (code 96). -/
def btC : Char := Char.ofNat 96

/-- The newline character (code 10). -/
def nlC : Char := Char.ofNat 10

/-- The opening curly brace character (code 123). -/
def obC : Char := Char.ofNat 123

/-- The closing curly brace character (code 125). -/
def cbC : Char := Char.ofNat 125

/-- Rust `char::is_whitespace` (the Unicode White_Space property), the
character class trimmed by `trim_right` at src/src/tools.rs line 179. -/
def isRustWhitespace (c : Char) : Bool :=
  decide ((9 ≤ c.toNat ∧ c.toNat ≤ 13) ∨ c.toNat = 32 ∨ c.toNat = 133 ∨ c.toNat = 160 ∨
    c.toNat = 5760 ∨ (8192 ≤ c.toNat ∧ c.toNat ≤ 8202) ∨ c.toNat = 8232 ∨
    c.toNat = 8233 ∨ c.toNat = 8239 ∨ c.toNat = 8287 ∨ c.toNat = 12288)

/-- Rust `str::trim_right`: remove trailing whitespace (tools.rs line 179). -/
def trimRight (l : Str) : Str := (List.dropWhile isRustWhitespace l.reverse).reverse

/-- The session state this core reads: the field `previous_cmd` of
`shell::Shell` (the last executed command line). -/
structure Shell where
  previous_cmd : Str

/-- Embeds `re_contains` (src/src/tools.rs lines 273-285). The external regex
engine is modelled by the parameter `compile`: `none` models a pattern whose
compilation fails (the `Err` branch prints a diagnostic and returns `false`),
`some m` models a successfully compiled regex by its match function. -/
def re_contains (compile : Str → Option (Str → Bool)) (line ptn : Str) : Bool :=
  match compile ptn with
  | some re => re line
  | none => false

/-- The character class `[a-zA-Z0-9_]` of the classifier regexes. -/
def word_char (c : Char) : Bool :=
  decide (('a' ≤ c ∧ c ≤ 'z') ∨ ('A' ≤ c ∧ c ≤ 'Z') ∨ ('0' ≤ c ∧ c ≤ '9') ∨ c = '_')

/-- Matching of the regex fragment `[a-zA-Z0-9_]+=.*$` against a whole
suffix. Since `=` is not a word character, any match must consume exactly the
maximal leading run of word characters (which must be non-empty), then `=`,
and `.*$` accepts the rest iff it has no newline (`.` does not match `\n` and
`$` anchors at the end of the text in the Rust regex crate's default mode),
so this scanner is exactly the regex's match test. -/
def env_assign_suffix (l : Str) : Bool :=
  !(List.takeWhile word_char l).isEmpty &&
    (match List.dropWhile word_char l with
     | c :: tl => c == '=' && tl.all (fun d => !(d == nlC))
     | [] => false)

/-- Embeds `is_env` (src/src/tools.rs lines 128-130):
`re_contains(line, r"^[a-zA-Z0-9_]+=.*$")`, with that fixed pattern's
semantics inlined (see `env_assign_suffix`). -/
def is_env (line : Str) : Bool := env_assign_suffix line

/-- Embeds `is_export_env` (src/src/tools.rs lines 124-126):
`re_contains(line, r"^ *export +[a-zA-Z0-9_]+=.*$")` with the fixed pattern's
semantics inlined. ` *` must consume exactly the maximal leading space run
(the literal `export` starts with a non-space), `export ` is then a literal
prefix covering the first mandatory space of ` +`, and the remaining spaces
of ` +` are again a maximal run because `[a-zA-Z0-9_]` excludes the space. -/
def is_export_env (line : Str) : Bool :=
  List.isPrefixOf ("export ".data) (List.dropWhile (fun c => c = ' ') line) &&
    env_assign_suffix
      (List.dropWhile (fun c => c = ' ')
        ((List.dropWhile (fun c => c = ' ') line).drop 7))

/-- The character class `[0-9]` (the regex `[0-9]+` matches iff some
character of the line is a digit). -/
def digitB (c : Char) : Bool := decide ('0' ≤ c ∧ c ≤ '9')

/-- The character class `[ 0-9\.\(\)\+\-\*/]` of `is_arithmetic`'s second
pattern: space, digits, dot, parentheses, plus, hyphen, star, slash. -/
def arith_char (c : Char) : Bool :=
  decide (c = ' ' ∨ ('0' ≤ c ∧ c ≤ '9') ∨ c = '.' ∨ c = '(' ∨ c = ')' ∨
    c = '+' ∨ c = '-' ∨ c = '*' ∨ c = '/')

/-- Embeds `is_arithmetic` (src/src/tools.rs lines 266-271): false unless the
line contains a digit (`re_contains(line, r"[0-9]+")`), then the anchored
class pattern `^[ 0-9\.\(\)\+\-\*/]+$`, i.e. non-empty and every character in
the class (the class has no newline, so `$` raises no extra case). -/
def is_arithmetic (line : Str) : Bool :=
  if !(line.any digitB) then false
  else !line.isEmpty && line.all arith_char

/-- The reading of `is_arithmetic` stated by the claim, which says
"whitespace" where the source's character class has only the space
character; stated with general whitespace so the two can be compared. -/
def is_arithmetic_claim (line : Str) : Bool :=
  line.any digitB &&
    line.all (fun c => digitB c || Char.isWhitespace c ||
      decide (c = '.' ∨ c = '(' ∨ c = ')' ∨ c = '+' ∨ c = '-' ∨ c = '*' ∨ c = '/'))

/-- Matching of the literal regex `!!`: does the text contain the two-character
substring `!!`? Used for the short-circuit test on the whole line and for the
per-token test in `extend_bandband`. -/
def hasBB : Str → Bool
  | [] => false
  | c :: tl =>
    (match tl with
     | d :: _ => c == '!' && d == '!'
     | [] => false) || hasBB tl

/-- The regex crate's `is_valid_cap_letter`: characters allowed in an
unbraced `$name` reference of a replacement string (`[0-9a-zA-Z_]`). -/
def capLetter (c : Char) : Bool :=
  decide (('0' ≤ c ∧ c ≤ '9') ∨ ('a' ≤ c ∧ c ≤ 'z') ∨ ('A' ≤ c ∧ c ≤ 'Z') ∨ c = '_')

/-- Numeric value of a digit string (how `parse::<u32>` reads it, modulo
overflow, which cannot happen for the value 0 that alone matters below). -/
def natOfDigits (l : Str) : Nat := l.foldl (fun a c => a * 10 + (c.toNat - 48)) 0

/-- Group lookup for a `$name` reference when the pattern is the literal
`!!`: only group 0 exists and its text is always `!!`. A reference resolves
to group 0 exactly when its name is a non-empty digit string of value 0
(`0`, `00`, ...); any other reference (positive index, overflowing index,
or a name, none of which exist) expands to the empty string. -/
def capRefText (name : Str) : Str :=
  if !name.isEmpty && name.all digitB && natOfDigits name == 0
  then ['!', '!'] else []

/-- Scan for the first closing brace, splitting a braced reference
`name}rest` into `(name, rest)`; `none` when no closing brace exists
(the regex crate's `find_cap_ref_braced` failing). -/
def braceSplit : Str → Option (Str × Str)
  | [] => none
  | c :: tl =>
    if c = cbC then some ([], tl)
    else
      match braceSplit tl with
      | some p => some (c :: p.1, p.2)
      | none => none

/-- One pass of the regex crate's replacement-string expansion (`expand.rs`)
for the fixed pattern `!!`: `$$` is a literal `$`; `${name}` and the longest
`$name` of cap letters look up a group (`capRefText`); a `$` followed by
neither is literal. The fuel argument only makes the recursion structural:
every recursive call consumes at least one character and spends one fuel, so
with initial fuel `l.length` (see `expandStr`) the fuel-exhausted arm is
unreachable. -/
def expandGo : Nat → Str → Str
  | _, [] => []
  | 0, c :: tl => c :: tl
  | fuel + 1, c :: tl =>
    if c = '$' then
      match tl with
      | [] => ['$']
      | d :: tl2 =>
        if d = '$' then '$' :: expandGo fuel tl2
        else if d = obC then
          match braceSplit tl2 with
          | some p => capRefText p.1 ++ expandGo fuel p.2
          | none => '$' :: obC :: expandGo fuel tl2
        else if (List.takeWhile capLetter (d :: tl2)).isEmpty then
          '$' :: expandGo fuel (d :: tl2)
        else
          capRefText (List.takeWhile capLetter (d :: tl2)) ++
            expandGo fuel (List.dropWhile capLetter (d :: tl2))
    else c :: expandGo fuel tl

/-- The text that each `!!` match is replaced by in
`re.replace_all(&line2, sh.previous_cmd.as_str())` (tools.rs line 166): the
`&str` replacer expands `$` references against the match's captures. For the
literal pattern `!!` the captures are the same at every match, so the
expansion of `previous_cmd` is a single string. -/
def expandStr (l : Str) : Str := expandGo l.length l

/-- `Regex::replace_all` for the literal pattern `!!`: replace each
leftmost non-overlapping occurrence of `!!` by `rep`. -/
def replaceBB (rep : Str) : Str → Str
  | [] => []
  | [c] => [c]
  | c :: d :: tl2 =>
    if c = '!' then
      if d = '!' then rep ++ replaceBB rep tl2
      else c :: replaceBB rep (d :: tl2)
    else c :: replaceBB rep (d :: tl2)

/-- The per-token body of `extend_bandband`'s loop (tools.rs lines 164-171):
if the token's text contains `!!` and its separator is not a single quote,
run the replacement, else keep the text. -/
def processed (prev sep token : Str) : Str :=
  if hasBB token = true ∧ sep ≠ [sqC] then replaceBB (expandStr prev) token
  else token

/-- Follows the spec's words for the substitution step: each selected `!!`
occurrence is replaced by the verbatim text of `previous_cmd`, with no
interpretation of its characters. Stated separately from `processed` so the
two can be compared. -/
def processed_verbatim (prev sep token : Str) : Str :=
  if hasBB token = true ∧ sep ≠ [sqC] then replaceBB prev token
  else token

/-- The string built by `extend_bandband`'s loop (tools.rs lines 159-177):
for each token, the separator when non-empty, the processed text, the
separator again when non-empty, then one space. -/
def ebb_lines (prev : Str) : List (Str × Str) → Str
  | [] => []
  | p :: rest =>
    (if p.1.isEmpty = true then [] else p.1) ++ processed prev p.1 p.2 ++
      (if p.1.isEmpty = true then [] else p.1) ++ ' ' :: ebb_lines prev rest

/-- The `replaced` flag of `extend_bandband`'s loop: set iff some token
takes the substitution branch. -/
def ebb_replaced : List (Str × Str) → Bool
  | [] => false
  | p :: rest => decide (hasBB p.2 = true ∧ p.1 ≠ [sqC]) || ebb_replaced rest

/-- Embeds `extend_bandband` (src/src/tools.rs lines 137-184). The external
tokenizer `parsers::parser_line::cmd_to_tokens` is the parameter
`cmd_to_tokens` (the spec treats it as a collaborator whose output shape
alone is fixed). The fixed pattern `!!` always compiles, so the
`Regex::new` error arm at lines 150-153 is unreachable and both
`re_contains` tests against `!!` are the substring test `hasBB`. The result
is the final content of the in-out `line` together with the `replaced` flag
(the line is echoed iff that flag is set). -/
def extend_bandband (cmd_to_tokens : Str → List (Str × Str)) (sh : Shell)
    (line : Str) : Str × Bool :=
  if hasBB line = false then (line, false)
  else if sh.previous_cmd.isEmpty = true then (line, false)
  else
    (trimRight (ebb_lines sh.previous_cmd (cmd_to_tokens line)),
      ebb_replaced (cmd_to_tokens line))

/-- Joining a list of strings with a single space between consecutive
elements, as the spec words the reassembly. -/
def join_with_space : List Str → Str
  | [] => []
  | [x] => x
  | x :: y :: rest => x ++ ' ' :: join_with_space (y :: rest)

/-- The reassembly formula as the spec states it: concatenate
`separator + processed_text + separator` per token (an empty separator
contributes nothing on either side), join with single spaces, and trim
trailing whitespace. -/
def reassemble_spec (prev : Str) (tokens : List (Str × Str)) : Str :=
  trimRight (join_with_space
    (tokens.map (fun p => p.1 ++ processed prev p.1 p.2 ++ p.1)))

/-- The `met_subsep`/`previous_subsep` update of `wrap_sep_string`'s loop
(src/src/tools.rs lines 194-202), performed before the escape tests. -/
def wrap_step (sep : Str) (met : Bool) (pv : Char) (c : Char) : Bool × Char :=
  if sep.isEmpty = true ∧ (c = btC ∨ c = dqC) then
    if met = false then (true, c)
    else if c = pv then (false, 'N')
    else (met, pv)
  else (met, pv)

/-- The loop of `wrap_sep_string` (src/src/tools.rs lines 191-210): per
character, update the sub-expression state, push a backslash when the
character equals the (one-character) separator, push a backslash when it is
a space outside any sub-expression while the separator is empty, then push
the character. -/
def wrap_chars (sep : Str) (met : Bool) (pv : Char) : Str → Str
  | [] => []
  | c :: tl =>
    (if [c] = sep then [bsC] else []) ++
      (if c = ' ' ∧ sep.isEmpty = true ∧ (wrap_step sep met pv c).1 = false
       then [bsC] else []) ++
      c :: wrap_chars sep (wrap_step sep met pv c).1 (wrap_step sep met pv c).2 tl

/-- Embeds `wrap_sep_string` (src/src/tools.rs lines 186-212): the escaped
text surrounded by the separator on both sides, with initial state
`met_subsep = false`, `previous_subsep = 'N'`. -/
def wrap_sep_string (sep s : Str) : Str := sep ++ wrap_chars sep false 'N' s ++ sep

/-- The claim's within-sub-expression flag: `none` is off; `some d` is on
with remembered delimiter `d`. It turns on at a backtick or double quote
when off, turns off when the same delimiter recurs, all only while the
separator is empty. -/
def subexpr_step (sep : Str) (st : Option Char) (c : Char) : Option Char :=
  if sep.isEmpty = true ∧ (c = btC ∨ c = dqC) then
    match st with
    | none => some c
    | some d => if c = d then none else some d
  else st

/-- The claim's character-by-character escaping: a character equal to the
(necessarily non-empty) separator is preceded by a backslash; with an empty
separator a space is preceded by a backslash exactly when the flag is off;
every other character is copied unchanged. -/
def escape_spec (sep : Str) : Option Char → Str → Str
  | _, [] => []
  | st, c :: tl =>
    (if [c] = sep then [bsC, c]
     else if sep.isEmpty = true ∧ c = ' ' ∧ subexpr_step sep st c = none
     then [bsC, c]
     else [c]) ++ escape_spec sep (subexpr_step sep st c) tl

/-- Un-escaping backslash sequences, as the round-trip in the spec words it:
a backslash-escaped character yields that character; others are copied. -/
def unescape : Str → Str
  | [] => []
  | c :: tl =>
    if c = bsC then
      match tl with
      | [] => [c]
      | d :: tl2 => d :: unescape tl2
    else c :: unescape tl

/-- Remove a leading occurrence of `p` from `l`, when present. -/
def stripLead (p l : Str) : Str :=
  if List.isPrefixOf p l then l.drop p.length else l

/-- Remove a trailing occurrence of `p` from `l`, when present. -/
def stripTrail (p l : Str) : Str := (stripLead p.reverse l.reverse).reverse

/-- Stripping the leading and trailing separator, as the round-trip in the
spec words it. -/
def strip_wrap (s l : Str) : Str := stripTrail s (stripLead s l)

/-- Modelled from the spec: the external tokenizer's `(separator, text)`
output for a line of two unquoted words such as `echo !!` (the tokenizer
`parsers::parser_line::cmd_to_tokens` is not under src/; the spec's Token
model fixes only the output shape). -/
def tokA : Str → List (Str × Str) :=
  fun _ => [([], ("echo".data)), ([], ("!!".data))]

/-- Modelled from the spec: tokenization of `echo '!!' && echo !!` into a
plain word, a single-quoted token, and plain words, consistent with the
spec's Token model and with the source's own unit test for this line. -/
def tokMixed : Str → List (Str × Str) :=
  fun _ => [([], ("echo".data)), ([sqC], ("!!".data)), ([], ("&&".data)),
    ([], ("echo".data)), ([], ("!!".data))]

/-- The line `echo '!!' && echo !!`. -/
def lineMixed : Str := ("echo ".data) ++ (sqC :: ("!!".data)) ++ (sqC :: (" && echo !!".data))

/-- The line `echo '!!' && echo foo`. -/
def outMixed : Str := ("echo ".data) ++ (sqC :: ("!!".data)) ++ (sqC :: (" && echo foo".data))

/-- Modelled from the spec: tokenization of `echo  '!!'` (two spaces) into a
plain word and a single-quoted token, consistent with the spec's Token model
(concatenation with separators reattached reconstructs the line modulo
whitespace normalization). -/
def tokC10 : Str → List (Str × Str) :=
  fun _ => [([], ("echo".data)), ([sqC], ("!!".data))]

/-- The line `echo  '!!'` with two spaces between the words. -/
def lineC10 : Str := ("echo  ".data) ++ (sqC :: ("!!".data)) ++ [sqC]

/-- The line `echo '!!'` with a single space. -/
def outC10 : Str := ("echo ".data) ++ (sqC :: ("!!".data)) ++ [sqC]

/-- Replacement-string expansion is the identity on strings without a
dollar sign, at any fuel. -/
lemma expandGo_no_dollar : ∀ (l : Str) (fuel : Nat), '$' ∉ l → expandGo fuel l = l := by
  intro l
  induction l with
  | nil => intro fuel _; cases fuel <;> rfl
  | cons c tl ih =>
    intro fuel h
    have hc : ¬ c = '$' := by
      intro hc; subst hc; exact h (List.mem_cons_self _ _)
    have htl : '$' ∉ tl := fun hm => h (List.mem_cons_of_mem c hm)
    cases fuel with
    | zero => rfl
    | succ fuel => simp [expandGo, hc, ih fuel htl]

/-- Replacement-string expansion is the identity on strings without a
dollar sign. -/
lemma expandStr_no_dollar (l : Str) (h : '$' ∉ l) : expandStr l = l :=
  expandGo_no_dollar l l.length h

/-- Claim C1: with a non-empty previous command, history expansion replaces
`!!` only in tokens whose separator is not a single quote: a single-quoted
token passes through with its text unmodified, a double-quoted or unquoted
token containing `!!` gets the substitution; and on the mixed line
`echo '!!' && echo !!` with previous command `foo` only the occurrence
outside single quotes is replaced, yielding `echo '!!' && echo foo`. -/
theorem claim_C1 (prev : Str) (hprev : prev ≠ []) (sep token : Str) :
    (sep = [sqC] → processed prev sep token = token) ∧
    ((sep = [dqC] ∨ sep = []) → hasBB token = true →
      processed prev sep token = replaceBB (expandStr prev) token) ∧
    extend_bandband tokMixed ⟨("foo".data)⟩ lineMixed = (outMixed, true) := by
  refine ⟨fun hs => ?_, fun hs hbb => ?_, by decide⟩
  · subst hs
    simp [processed]
  · have hne : sep ≠ [sqC] := by
      rcases hs with h | h <;> subst h <;> decide
    simp [processed, hbb, hne]

/-- Witness for claim C1 at concrete inputs: previous command `foo`, a
single-quoted `!!` token kept intact, an unquoted `!!` token substituted. -/
theorem claim_C1_witness :
    (processed ("foo".data) [sqC] ("!!".data) = ("!!".data)) ∧
    (processed ("foo".data) [] ("!!".data) =
      replaceBB (expandStr ("foo".data)) ("!!".data)) :=
  ⟨(claim_C1 ("foo".data) (by decide) [sqC] ("!!".data)).1 rfl,
   (claim_C1 ("foo".data) (by decide) [] ("!!".data)).2.1 (Or.inr rfl) (by decide)⟩

/-- Claim C2: if the line contains no `!!` substring, or the session's
previous command is empty, `extend_bandband` leaves the line exactly
unchanged and echoes nothing, whatever the tokenizer does. -/
theorem claim_C2 (tok : Str → List (Str × Str)) (sh : Shell) (line : Str) :
    (hasBB line = false → extend_bandband tok sh line = (line, false)) ∧
    (sh.previous_cmd = [] → extend_bandband tok sh line = (line, false)) := by
  constructor
  · intro h
    simp [extend_bandband, h]
  · intro h
    by_cases hbb : hasBB line = false
    · simp [extend_bandband, hbb]
    · simp [extend_bandband, hbb, h]

/-- Witness for claim C2: a line without `!!` with a non-empty history, and
a line with `!!` with an empty history, both returned unchanged. -/
theorem claim_C2_witness :
    extend_bandband tokA ⟨("foo".data)⟩ ("echo hi".data) = (("echo hi".data), false) ∧
    extend_bandband tokA ⟨[]⟩ ("echo !!".data) = (("echo !!".data), false) :=
  ⟨(claim_C2 tokA ⟨("foo".data)⟩ ("echo hi".data)).1 (by decide),
   (claim_C2 tokA ⟨[]⟩ ("echo !!".data)).2 rfl⟩

/-- Counterexample to claim C3: with `previous_cmd = "$0"` the source's
`replace_all` with a `&str` replacer expands `$0` to the matched text `!!`,
so `echo !!` becomes `echo !!` (and is echoed), not the `echo $0` that
verbatim substitution (`processed_verbatim`) would produce. -/
theorem claim_C3_counterexample :
    extend_bandband tokA ⟨("$0".data)⟩ ("echo !!".data) = (("echo !!".data), true) ∧
    processed ("$0".data) [] ("!!".data) = ("!!".data) ∧
    processed_verbatim ("$0".data) [] ("!!".data) = ("$0".data) := by decide

/-- Claim C3 as amended: when `previous_cmd` contains no dollar sign, each
`!!` occurrence selected for substitution is replaced by the verbatim text
of `previous_cmd`, with no interpretation of its characters. -/
theorem claim_C3_amended (prev : Str) (hd : '$' ∉ prev) (sep token : Str) :
    processed prev sep token = processed_verbatim prev sep token := by
  simp [processed, processed_verbatim, expandStr_no_dollar prev hd]

/-- Witness for the amended claim C3 at `previous_cmd = "foo"`. -/
theorem claim_C3_witness :
    processed ("foo".data) [] ("!!".data) =
      processed_verbatim ("foo".data) [] ("!!".data) :=
  claim_C3_amended ("foo".data) (by decide) [] ("!!".data)

/-- Counterexample to claim C7: the line `1` followed by a tab contains a
digit and every character is a digit or whitespace, so the claim's reading
makes it arithmetic, but the source's character class has only the space
character and rejects the tab. -/
theorem claim_C7_counterexample :
    is_arithmetic_claim ['1', Char.ofNat 9] = true ∧
    is_arithmetic ['1', Char.ofNat 9] = false := by decide

/-- Claim C7 as amended: `is_arithmetic` is true iff the line contains at
least one digit and every character is a digit, a space (not arbitrary
whitespace), `.`, `(`, `)`, `+`, `-`, `*` or `/`; in particular
`1 + 2 * (3-4)` is arithmetic and `+ - *` is not. -/
theorem claim_C7_amended :
    (∀ line : Str, is_arithmetic line = (line.any digitB && line.all arith_char)) ∧
    is_arithmetic ("1 + 2 * (3-4)".data) = true ∧
    is_arithmetic ("+ - *".data) = false := by
  refine ⟨fun line => ?_, by decide, by decide⟩
  cases hany : line.any digitB with
  | false => simp [is_arithmetic, hany]
  | true =>
    cases line with
    | nil => simp at hany
    | cons c tl => simp [is_arithmetic, hany]

/-- A conditional push of a possibly empty separator is a plain append. -/
lemma if_isEmpty_eq (s : Str) : (if s.isEmpty = true then ([] : Str) else s) = s := by
  cases s <;> simp

/-- Variant of `if_isEmpty_eq` with the emptiness test already reduced. -/
lemma if_nil_eq (s : Str) : (if s = [] then ([] : Str) else s) = s := by
  cases s <;> simp

/-- One step of the loop string, with the conditional pushes flattened. -/
lemma ebb_lines_cons (prev : Str) (p : Str × Str) (rest : List (Str × Str)) :
    ebb_lines prev (p :: rest) =
      (p.1 ++ processed prev p.1 p.2 ++ p.1) ++ ' ' :: ebb_lines prev rest := by
  simp [ebb_lines, if_isEmpty_eq, if_nil_eq]

/-- Trimming absorbs a trailing space. -/
lemma trimRight_append_space (l : Str) : trimRight (l ++ [' ']) = trimRight l := by
  simp [trimRight, List.dropWhile_cons,
    show isRustWhitespace ' ' = true from by decide]

/-- The loop string on a non-empty token list is the single-space join of
the wrapped tokens followed by one trailing space. -/
lemma ebb_lines_join (prev : Str) :
    ∀ tokens : List (Str × Str), tokens ≠ [] →
      ebb_lines prev tokens =
        join_with_space
          (tokens.map (fun p => p.1 ++ processed prev p.1 p.2 ++ p.1)) ++ [' '] := by
  intro tokens
  induction tokens with
  | nil => intro h; exact absurd rfl h
  | cons p rest ih =>
    intro _
    cases rest with
    | nil => simp [ebb_lines_cons, ebb_lines, join_with_space, if_nil_eq, if_isEmpty_eq]
    | cons q rest2 =>
      rw [ebb_lines_cons, ih (List.cons_ne_nil q rest2)]
      simp [join_with_space]

/-- Claim C4: when not short-circuited, the output line is, for the token
sequence the tokenizer produces, the concatenation per token of
`separator ++ processed text ++ separator` joined by single spaces, with
trailing whitespace trimmed (an empty separator contributing nothing). -/
theorem claim_C4 (tok : Str → List (Str × Str)) (sh : Shell) (line : Str)
    (h1 : hasBB line = true) (h2 : sh.previous_cmd ≠ []) :
    (extend_bandband tok sh line).1 = reassemble_spec sh.previous_cmd (tok line) := by
  have hne : sh.previous_cmd.isEmpty = false := by
    cases hp : sh.previous_cmd
    · exact absurd hp h2
    · rfl
  simp only [extend_bandband, h1, hne, reassemble_spec]
  norm_num
  cases htoks : tok line with
  | nil => rfl
  | cons p rest =>
    rw [ebb_lines_join sh.previous_cmd (p :: rest) (List.cons_ne_nil p rest),
      trimRight_append_space]
    simp only [List.append_assoc]

/-- Witness for claim C4 on `echo !!` with previous command `foo`. -/
theorem claim_C4_witness :
    (extend_bandband tokA ⟨("foo".data)⟩ ("echo !!".data)).1 =
      reassemble_spec ("foo".data) (tokA ("echo !!".data)) :=
  claim_C4 tokA ⟨("foo".data)⟩ ("echo !!".data) (by decide) (by decide)

/-- A boolean prefix test certifies an append decomposition. -/
lemma isPrefixOf_exists : ∀ p l : Str, List.isPrefixOf p l = true → ∃ t, l = p ++ t := by
  intro p
  induction p with
  | nil => intro l _; exact ⟨l, rfl⟩
  | cons a as ih =>
    intro l h
    cases l with
    | nil => simp [List.isPrefixOf] at h
    | cons b bs =>
      simp only [List.isPrefixOf, Bool.and_eq_true, beq_iff_eq] at h
      obtain ⟨t, ht⟩ := ih bs h.2
      exact ⟨t, by rw [List.cons_append, ← h.1, ← ht]⟩

/-- Claim C8: a line accepted by `is_export_env` is never accepted by
`is_env` — the anchored `<name>=` pattern admits no leading keyword. -/
theorem claim_C8 (line : Str) (h : is_export_env line = true) : is_env line = false := by
  have hpre : List.isPrefixOf ("export ".data)
      (List.dropWhile (fun c => c = ' ') line) = true := by
    simp only [is_export_env, Bool.and_eq_true] at h
    exact h.1
  cases line with
  | nil => simp [List.dropWhile] at hpre
  | cons c tl =>
    by_cases hc : c = ' '
    · subst hc
      rfl
    · have hdw : List.dropWhile (fun x => decide (x = ' ')) (c :: tl) = c :: tl := by
        simp [List.dropWhile_cons, hc]
      rw [hdw] at hpre
      obtain ⟨t, ht⟩ := isPrefixOf_exists _ _ hpre
      rw [ht]
      rfl

/-- Witness for claim C8 on the line `export A=1`. -/
theorem claim_C8_witness : is_env ("export A=1".data) = false :=
  claim_C8 ("export A=1".data) (by decide)

/-- Claim C9: the modelled `re_contains` is a total boolean function, and
when the pattern fails to compile it returns `false` (after a diagnostic)
instead of aborting. -/
theorem claim_C9 (compile : Str → Option (Str → Bool)) (line ptn : Str) :
    (re_contains compile line ptn = true ∨ re_contains compile line ptn = false) ∧
    (compile ptn = none → re_contains compile line ptn = false) := by
  constructor
  · cases re_contains compile line ptn
    · exact Or.inr rfl
    · exact Or.inl rfl
  · intro h
    simp [re_contains, h]

/-- Witness for claim C9: a compiler that rejects every pattern makes
`re_contains` return `false`. -/
theorem claim_C9_witness :
    re_contains (fun _ => none) ("abc".data) ("[".data) = false :=
  (claim_C9 (fun _ => none) ("abc".data) ("[".data)).2 rfl

/-- The loop state of `wrap_sep_string` and the claim's optional-delimiter
flag stay related under one step: flag off corresponds to `none`, flag on to
`some` of the remembered delimiter. -/
lemma wrap_step_rel (sep : Str) (met : Bool) (pv : Char) (st : Option Char) (c : Char)
    (h : (met = false ∧ st = none) ∨ (met = true ∧ st = some pv)) :
    ((wrap_step sep met pv c).1 = false ∧ subexpr_step sep st c = none) ∨
    ((wrap_step sep met pv c).1 = true ∧
      subexpr_step sep st c = some (wrap_step sep met pv c).2) := by
  unfold wrap_step subexpr_step
  by_cases hcond : sep.isEmpty = true ∧ (c = btC ∨ c = dqC)
  · simp only [if_pos hcond]
    rcases h with ⟨hm, hst⟩ | ⟨hm, hst⟩ <;> subst hm <;> subst hst
    · simp
    · by_cases hcp : c = pv
      · subst hcp; simp
      · simp [hcp]
  · simp only [if_neg hcond]
    rcases h with ⟨hm, hst⟩ | ⟨hm, hst⟩ <;> subst hm <;> subst hst <;> simp

/-- The escaping loop of `wrap_sep_string` computes the claim's
character-by-character escaping, for related states. -/
lemma wrap_chars_eq_escape (sep : Str) :
    ∀ (s : Str) (met : Bool) (pv : Char) (st : Option Char),
      ((met = false ∧ st = none) ∨ (met = true ∧ st = some pv)) →
      wrap_chars sep met pv s = escape_spec sep st s := by
  intro s
  induction s with
  | nil => intro met pv st _; rfl
  | cons c tl ih =>
    intro met pv st h
    have hrel := wrap_step_rel sep met pv st c h
    have htail : wrap_chars sep (wrap_step sep met pv c).1 (wrap_step sep met pv c).2 tl
        = escape_spec sep (subexpr_step sep st c) tl := by
      rcases hrel with ⟨h1, h2⟩ | ⟨h1, h2⟩
      · exact ih _ _ _ (Or.inl ⟨h1, h2⟩)
      · exact ih _ _ _ (Or.inr ⟨h1, h2⟩)
    simp only [wrap_chars, escape_spec]
    rw [htail]
    by_cases h1 : [c] = sep
    · have hni : ¬ (c = ' ' ∧ sep.isEmpty = true ∧ (wrap_step sep met pv c).1 = false) := by
        intro hcon
        rw [← h1] at hcon
        simp at hcon
      rw [if_pos h1, if_pos h1, if_neg hni]
      simp
    · rw [if_neg h1, if_neg h1]
      by_cases h2 : c = ' ' ∧ sep.isEmpty = true ∧ (wrap_step sep met pv c).1 = false
      · have hst : subexpr_step sep st c = none := by
          rcases hrel with ⟨ha, hb⟩ | ⟨ha, hb⟩
          · exact hb
          · rw [h2.2.2] at ha
            simp at ha
        rw [if_pos h2, if_pos ⟨h2.2.1, h2.1, hst⟩]
        simp
      · have hst2 : ¬ (sep.isEmpty = true ∧ c = ' ' ∧ subexpr_step sep st c = none) := by
          intro hcon
          apply h2
          refine ⟨hcon.2.1, hcon.1, ?_⟩
          rcases hrel with ⟨ha, hb⟩ | ⟨ha, hb⟩
          · exact ha
          · rw [hcon.2.2] at hb
            exact Option.noConfusion hb
        rw [if_neg h2, if_neg hst2]
        simp

/-- Claim C5: `wrap_sep_string sep text` is the separator, then the text
escaped character by character exactly as the claim describes (characters
equal to a non-empty separator backslash-escaped; with an empty separator,
spaces backslash-escaped exactly while the within-sub-expression flag is
off, the flag toggling on backticks and double quotes; everything else
copied unchanged), then the separator again. -/
theorem claim_C5 (sep s : Str) :
    wrap_sep_string sep s = sep ++ escape_spec sep none s ++ sep := by
  unfold wrap_sep_string
  rw [wrap_chars_eq_escape sep s false 'N' none (Or.inl ⟨rfl, rfl⟩)]

/-- Every list is a boolean prefix of itself followed by anything. -/
lemma isPrefixOf_append_self (s x : Str) : List.isPrefixOf s (s ++ x) = true := by
  have h : s <+: s ++ x := ⟨x, rfl⟩
  exact List.isPrefixOf_iff_prefix.mpr h

/-- Stripping a leading copy of `s` from `s ++ x` leaves `x`. -/
lemma stripLead_append (s x : Str) : stripLead s (s ++ x) = x := by
  simp [stripLead, isPrefixOf_append_self, List.drop_left]

/-- Stripping the separator from both ends of a wrapped string recovers the
middle. -/
lemma strip_wrap_wrap (s m : Str) : strip_wrap s (s ++ m ++ s) = m := by
  unfold strip_wrap stripTrail
  rw [List.append_assoc, stripLead_append]
  rw [show (m ++ s).reverse = s.reverse ++ m.reverse from by simp]
  rw [stripLead_append, List.reverse_reverse]

/-- Un-escaping steps over an unescaped character. -/
lemma unescape_cons_ne (c : Char) (l : Str) (h : ¬ c = bsC) :
    unescape (c :: l) = c :: unescape l := by
  cases l <;> simp [unescape, h]

/-- Un-escaping resolves a backslash-escaped character. -/
lemma unescape_cons_bs (d : Char) (l : Str) :
    unescape (bsC :: d :: l) = d :: unescape l := by
  simp [unescape]

/-- Un-escaping undoes the escaping loop, for text free of the separator
character and of backslashes, from any sub-expression state. -/
lemma unescape_wrap_chars :
    ∀ (t sep : Str) (met : Bool) (pv : Char),
      (∀ c, c ∈ t → [c] ≠ sep) → bsC ∉ t →
      unescape (wrap_chars sep met pv t) = t := by
  intro t
  induction t with
  | nil => intro sep met pv _ _; rfl
  | cons c tl ih =>
    intro sep met pv hsep hbs
    have hc1 : [c] ≠ sep := hsep c (List.mem_cons_self _ _)
    have hcb : ¬ c = bsC := fun he => hbs (he ▸ List.mem_cons_self _ _)
    have hsep2 : ∀ d, d ∈ tl → [d] ≠ sep := fun d hd => hsep d (List.mem_cons_of_mem c hd)
    have hbs2 : bsC ∉ tl := fun hm => hbs (List.mem_cons_of_mem c hm)
    have htail := ih sep (wrap_step sep met pv c).1 (wrap_step sep met pv c).2 hsep2 hbs2
    simp only [wrap_chars, if_neg hc1, List.nil_append]
    by_cases h2 : c = ' ' ∧ sep.isEmpty = true ∧ (wrap_step sep met pv c).1 = false
    · rw [if_pos h2]
      simp only [List.singleton_append, unescape_cons_bs, htail]
    · rw [if_neg h2]
      simp only [List.nil_append, unescape_cons_ne c _ hcb, htail]

/-- Counterexample to claim C6: for `s = "'"` and `t = "\a"` (a backslash
then `a`), `t` contains no single quote, yet stripping and un-escaping the
wrapped string yields `a`, not `t`: un-escaping consumes the backslash that
the escaping loop never doubled. -/
theorem claim_C6_counterexample :
    wrap_sep_string [sqC] [bsC, 'a'] = [sqC, bsC, 'a', sqC] ∧
    unescape (strip_wrap [sqC] (wrap_sep_string [sqC] [bsC, 'a'])) = ['a'] ∧
    sqC ∉ [bsC, 'a'] ∧ (['a'] : Str) ≠ [bsC, 'a'] := by decide

/-- Claim C6 as amended: for separator `s` in `{"", "'", "\""}` and text `t`
containing no occurrence of `s` and no backslash, stripping the leading and
trailing `s` from `wrap_sep_string s t` and un-escaping backslash sequences
recovers `t` exactly. -/
theorem claim_C6_amended (s t : Str)
    (hs : s = [] ∨ s = [sqC] ∨ s = [dqC])
    (hocc : ∀ c, c ∈ s → c ∉ t) (hbs : bsC ∉ t) :
    unescape (strip_wrap s (wrap_sep_string s t)) = t := by
  have hsep : ∀ c, c ∈ t → [c] ≠ s := by
    intro c hct he
    have hcs : c ∈ s := by rw [← he]; exact List.mem_cons_self _ _
    exact hocc c hcs hct
  unfold wrap_sep_string
  rw [strip_wrap_wrap]
  exact unescape_wrap_chars t s false 'N' hsep hbs

/-- Witness for the amended claim C6: single-quote separator around `a b`. -/
theorem claim_C6_witness :
    unescape (strip_wrap [sqC] (wrap_sep_string [sqC] ("a b".data))) = ("a b".data) :=
  claim_C6_amended [sqC] ("a b".data) (Or.inr (Or.inl rfl)) (by decide) (by decide)

/-- Claim C10: on `echo  '!!'` (two spaces) with previous command `foo`,
`extend_bandband` substitutes nothing and echoes nothing (flag `false`), yet
the reassembly normalizes the whitespace, so the line still changes. -/
theorem claim_C10 :
    extend_bandband tokC10 ⟨("foo".data)⟩ lineC10 = (outC10, false) ∧
    outC10 ≠ lineC10 := by decide

end Tools
